import Mathlib

/-!
Verification of the dice-decathlon precompute solvers.

This file gives a shallow embedding of the two C++ solvers of the repository
(`solvers/decathlon_100m_precompute.cpp` and `solvers/longjump_precompute.cpp`)
and proves properties of them.  All `double` arithmetic of the source is
modelled exactly over `ℚ` (the solvers only add, multiply and compare
probability-weighted averages, so the idealised field is `ℚ`); standard
deviations, which the source only derives on demand from a moments pair, are
modelled over `ℝ` via `Real.sqrt`, and a bridge lemma shows that comparing
standard deviations is equivalent to comparing the clamped variances, which
keeps the solver definitions themselves executable.

Large enumerations are written tail-recursively or tree-recursively so that a
witness can evaluate them inside the kernel; each such definition records in
its doc comment the source loop it models.
-/

set_option maxRecDepth 1000000
set_option maxHeartbeats 8000000

/-- Moments pair `(E[X], E[X^2])`, mirroring `struct Moments { double ev=0, ev2=0; }`
    from both solvers. -/
structure Moments where
  ev : ℚ
  ev2 : ℚ
deriving DecidableEq

/-- The zero moments `{0.0, 0.0}`. -/
def zeroM : Moments := ⟨0, 0⟩

/-- Point-distribution moments `{double(t), double(t)*double(t)}`
    (`decathlon_100m_precompute.cpp` line 55). -/
def pointM (t : ℚ) : Moments := ⟨t, t * t⟩

/-- Clamped variance `max(0.0, m.ev2 - m.ev*m.ev)`, as computed by the `sd`
    lambdas in both solvers before taking the square root. -/
def varClamp (m : Moments) : ℚ := max 0 (m.ev2 - m.ev * m.ev)

/-- Standard deviation `sqrt(max(0.0, m.ev2 - m.ev*m.ev))` from
    `decathlon_100m_precompute.cpp` (lines 80 and 162). -/
noncomputable def sd100m (m : Moments) : ℝ :=
  Real.sqrt (max 0 ((m.ev2 : ℝ) - (m.ev : ℝ) * (m.ev : ℝ)))

/-- Standard deviation `sqrt(max(0.0, attemptM.ev2 - attemptM.ev*attemptM.ev))`
    from `longjump_precompute.cpp` (lines 198-199). -/
noncomputable def sdLJ (m : Moments) : ℝ :=
  Real.sqrt (max 0 ((m.ev2 : ℝ) - (m.ev : ℝ) * (m.ev : ℝ)))

/-- Shift of a moments pair by a constant: the moments of `s + X` given the
    moments of `X`.  Used to state that stage-2 sprint values are affine in the
    carried `set1_score`. -/
def shiftM (s : ℚ) (m : Moments) : Moments := ⟨s + m.ev, s * s + 2 * s * m.ev + m.ev2⟩

/-- The six die faces, `static const int SIDES[6] = {1,2,3,4,5,6};`. -/
def SIDES : List ℕ := [1, 2, 3, 4, 5, 6]

/-- Insertion of an element into a sorted list (helper for `sortDice`). -/
def insSorted (x : ℕ) : List ℕ → List ℕ
  | [] => [x]
  | y :: ys => if x ≤ y then x :: y :: ys else y :: insSorted x ys

/-- Insertion sort on lists of naturals; models `sort(t.begin(), t.end())`
    applied to a four-dice tuple. -/
def sortDice : List ℕ → List ℕ
  | [] => []
  | x :: xs => insSorted x (sortDice xs)

/-- All 6^4 = 1296 ordered four-dice tuples, in the nested-loop order of
    `ensure_four_outs` (lines 97-99). -/
def allTuples4 : List (List ℕ) :=
  (SIDES.map (fun a => (SIDES.map (fun b => (SIDES.map (fun c =>
    (SIDES.map (fun d => [a, b, c, d])))).flatten)).flatten)).flatten

/-- Base-7 code of a dice tuple, injective on lists of four faces `1..6`;
    the induced order on sorted tuples is the lexicographic order used by
    `std::sort` in `ensure_four_outs`. -/
def diceCode (l : List ℕ) : ℕ := l.foldl (fun a v => a * 7 + v) 0

/-- Deduplication of a tuple list, keeping first occurrences, with the
    already-seen set held as dice codes.  Because the sorted form of a
    multiset is the lexicographically least tuple generated for it, keeping
    first occurrences of the nested-loop enumeration yields exactly the
    lexicographically sorted duplicate-free list that `std::sort` +
    `std::unique` produce in `ensure_four_outs` (lines 100-102). -/
def dedupDice (seen : List ℕ) (acc : List (List ℕ)) : List (List ℕ) → List (List ℕ)
  | [] => acc.reverse
  | t :: ts =>
      let c := diceCode t
      if seen.contains c then dedupDice seen acc ts
      else dedupDice (c :: seen) (t :: acc) ts

/-- The `FOUR_OUTS` table built by `ensure_four_outs`: sort each of the 1296
    tuples, then reduce to the canonical duplicate-free list. -/
def fourOutsCalc : List (List ℕ) := dedupDice [] [] (allTuples4.map sortDice)

/-- The 126 canonical sorted four-dice outcomes (`FOUR_OUTS` after dedup),
    written out literally so that downstream evaluations are cheap; the
    theorem `four_outs_spec` certifies this list against `fourOutsCalc`. -/
def FOUR_OUTS : List (List ℕ) :=
  [
   [1, 1, 1, 1], [1, 1, 1, 2], [1, 1, 1, 3], [1, 1, 1, 4], [1, 1, 1, 5], [1, 1, 1, 6],
   [1, 1, 2, 2], [1, 1, 2, 3], [1, 1, 2, 4], [1, 1, 2, 5], [1, 1, 2, 6], [1, 1, 3, 3],
   [1, 1, 3, 4], [1, 1, 3, 5], [1, 1, 3, 6], [1, 1, 4, 4], [1, 1, 4, 5], [1, 1, 4, 6],
   [1, 1, 5, 5], [1, 1, 5, 6], [1, 1, 6, 6], [1, 2, 2, 2], [1, 2, 2, 3], [1, 2, 2, 4],
   [1, 2, 2, 5], [1, 2, 2, 6], [1, 2, 3, 3], [1, 2, 3, 4], [1, 2, 3, 5], [1, 2, 3, 6],
   [1, 2, 4, 4], [1, 2, 4, 5], [1, 2, 4, 6], [1, 2, 5, 5], [1, 2, 5, 6], [1, 2, 6, 6],
   [1, 3, 3, 3], [1, 3, 3, 4], [1, 3, 3, 5], [1, 3, 3, 6], [1, 3, 4, 4], [1, 3, 4, 5],
   [1, 3, 4, 6], [1, 3, 5, 5], [1, 3, 5, 6], [1, 3, 6, 6], [1, 4, 4, 4], [1, 4, 4, 5],
   [1, 4, 4, 6], [1, 4, 5, 5], [1, 4, 5, 6], [1, 4, 6, 6], [1, 5, 5, 5], [1, 5, 5, 6],
   [1, 5, 6, 6], [1, 6, 6, 6], [2, 2, 2, 2], [2, 2, 2, 3], [2, 2, 2, 4], [2, 2, 2, 5],
   [2, 2, 2, 6], [2, 2, 3, 3], [2, 2, 3, 4], [2, 2, 3, 5], [2, 2, 3, 6], [2, 2, 4, 4],
   [2, 2, 4, 5], [2, 2, 4, 6], [2, 2, 5, 5], [2, 2, 5, 6], [2, 2, 6, 6], [2, 3, 3, 3],
   [2, 3, 3, 4], [2, 3, 3, 5], [2, 3, 3, 6], [2, 3, 4, 4], [2, 3, 4, 5], [2, 3, 4, 6],
   [2, 3, 5, 5], [2, 3, 5, 6], [2, 3, 6, 6], [2, 4, 4, 4], [2, 4, 4, 5], [2, 4, 4, 6],
   [2, 4, 5, 5], [2, 4, 5, 6], [2, 4, 6, 6], [2, 5, 5, 5], [2, 5, 5, 6], [2, 5, 6, 6],
   [2, 6, 6, 6], [3, 3, 3, 3], [3, 3, 3, 4], [3, 3, 3, 5], [3, 3, 3, 6], [3, 3, 4, 4],
   [3, 3, 4, 5], [3, 3, 4, 6], [3, 3, 5, 5], [3, 3, 5, 6], [3, 3, 6, 6], [3, 4, 4, 4],
   [3, 4, 4, 5], [3, 4, 4, 6], [3, 4, 5, 5], [3, 4, 5, 6], [3, 4, 6, 6], [3, 5, 5, 5],
   [3, 5, 5, 6], [3, 5, 6, 6], [3, 6, 6, 6], [4, 4, 4, 4], [4, 4, 4, 5], [4, 4, 4, 6],
   [4, 4, 5, 5], [4, 4, 5, 6], [4, 4, 6, 6], [4, 5, 5, 5], [4, 5, 5, 6], [4, 5, 6, 6],
   [4, 6, 6, 6], [5, 5, 5, 5], [5, 5, 5, 6], [5, 5, 6, 6], [5, 6, 6, 6], [6, 6, 6, 6]
  ]

/-- Raw set score from `score_set` (lines 9-11): sum of the faces, with every
    die showing 6 contributing -6 instead. -/
def scoreSet (d : List ℕ) : ℤ := (d.map (fun v => if v = 6 then (-6 : ℤ) else (v : ℤ))).sum

/-- The tie tolerance `1e-12` from `solve_state` (line 85). -/
def tol : ℚ := 1 / 10 ^ 12

/-- Uniform averaging of moments, mirroring `combine_avg` (lines 41-45):
    `w = 1.0/ms.size()`, then accumulate `ev += w*m.ev; ev2 += w*m.ev2`. -/
def combineAvg (ms : List Moments) : Moments :=
  ⟨(ms.map (fun m => (1 / (ms.length : ℚ)) * m.ev)).sum,
   (ms.map (fun m => (1 / (ms.length : ℚ)) * m.ev2)).sum⟩

/-- Best-action selection from `solve_state` lines 79-87: reroll wins iff its
    EV is strictly greater, or the EVs are within `tol` and its SD is strictly
    lower.  The source compares `sd_r < sd_f` on square roots of the clamped
    variances; since the square root is strictly monotone on the clamped
    (non-negative) values the comparison is made on the variances here, and
    `sd_lt_iff_varClamp_lt` certifies the equivalence. -/
def chooseAct (fm : Moments) (rm : Option Moments) : String × Moments :=
  match rm with
  | none => ("freeze", fm)
  | some r =>
      if fm.ev < r.ev ∨ (|r.ev - fm.ev| < tol ∧ varClamp r < varClamp fm) then
        ("reroll", r)
      else
        ("freeze", fm)

/-- Result record for a sprint state, mirroring `struct SolveRes` (lines 32-37). -/
structure SolveRes where
  best : Moments
  freeze_m : Moments
  reroll_m : Option Moments
  best_action : String
deriving DecidableEq

/-- The stage-2 branch of `solve_state` (lines 47-92), as a function of
    `(rerolls, dice, set1_score)`.  Freezing terminates with the point
    distribution of `set1_score + score_set(dice)` (lines 53-55); rerolling,
    available when rerolls remain (lines 69-77), uniformly averages the
    optimal moments of the 126 canonical child outcomes at one fewer reroll.
    The memoisation table of the source caches exactly the graph of this
    function, so it is dropped in the embedding. -/
def solveState2 : ℕ → List ℕ → ℤ → SolveRes
  | 0, d, s1 =>
      let fm := pointM ((s1 + scoreSet d : ℤ) : ℚ)
      ⟨fm, fm, none, "freeze"⟩
  | r + 1, d, s1 =>
      let fm := pointM ((s1 + scoreSet d : ℤ) : ℚ)
      let rm := combineAvg (FOUR_OUTS.map (fun o => (solveState2 r o s1).best))
      let c := chooseAct fm (some rm)
      ⟨c.2, fm, some rm, c.1⟩

/-- The stage-1 branch of `solve_state`.  Freezing fans out (uniformly over
    the 126 canonical outcomes, lines 56-64) into stage-2 states that carry
    `score_set(dice)` and keep the same reroll budget; rerolling averages
    stage-1 states at one fewer reroll.  The stage-1 sentinel
    `set1_score = 7777` is never read by the source in this branch, so it is
    not a parameter here. -/
def solveState1 : ℕ → List ℕ → SolveRes
  | 0, d =>
      let fm := combineAvg (FOUR_OUTS.map (fun o => (solveState2 0 o (scoreSet d)).best))
      ⟨fm, fm, none, "freeze"⟩
  | r + 1, d =>
      let fm := combineAvg (FOUR_OUTS.map (fun o => (solveState2 (r + 1) o (scoreSet d)).best))
      let rm := combineAvg (FOUR_OUTS.map (fun o => (solveState1 r o).best))
      let c := chooseAct fm (some rm)
      ⟨c.2, fm, some rm, c.1⟩

/-- Multinomial coefficient of a four-dice outcome: the number of orderings of
    the multiset, `4! / (c1! * ... * c6!)`.  This is the claim-side notion of
    outcome weight (an outcome's probability is its multinomial coefficient
    divided by `6^4`). -/
def multinomialCoeff (o : List ℕ) : ℕ :=
  Nat.factorial 4 / ((SIDES.map (fun f => Nat.factorial (o.count f))).prod)

/-- Claim-side weight of a canonical outcome: multinomial coefficient over `6^4`. -/
def specMultWeight (o : List ℕ) : ℚ := (multinomialCoeff o : ℚ) / 6 ^ 4

/-- Claim-side probability-weighted average of child moments over the 126
    canonical outcomes, each weighted by `specMultWeight`. -/
def specMultAvg (f : List ℕ → Moments) : Moments :=
  ⟨(FOUR_OUTS.map (fun o => specMultWeight o * (f o).ev)).sum,
   (FOUR_OUTS.map (fun o => specMultWeight o * (f o).ev2)).sum⟩

/-- Claim-side statement of the sprint tie-break policy for one solved state:
    the action with strictly greater EV is chosen when the EVs are not within
    the tolerance; on an EV tie within the tolerance the action with strictly
    lower SD is chosen, and freeze is chosen when the SDs are equal. -/
def tieBreakSpec (R : SolveRes) : Prop :=
  ∀ rm, R.reroll_m = some rm →
    (¬ |rm.ev - R.freeze_m.ev| < tol →
        (R.freeze_m.ev < rm.ev → R.best_action = "reroll") ∧
        (rm.ev < R.freeze_m.ev → R.best_action = "freeze")) ∧
    (|rm.ev - R.freeze_m.ev| < tol →
        (sd100m rm < sd100m R.freeze_m → R.best_action = "reroll") ∧
        (sd100m R.freeze_m < sd100m rm → R.best_action = "freeze") ∧
        (sd100m rm = sd100m R.freeze_m → R.best_action = "freeze"))

/-- Stage-2 best-moments table at carried score 0: entry `i` is the best
    moments of the stage-2 state with reroll budget `r` and dice
    `FOUR_OUTS[i]`.  `row2_eq` proves it equal to the corresponding
    `solveState2` values; it exists so that finitely many solver facts can be
    evaluated without exponential recomputation, mirroring the memo table of
    the source. -/
def row2 : ℕ → List Moments
  | 0 => FOUR_OUTS.map (fun o => pointM ((scoreSet o : ℤ) : ℚ))
  | r + 1 =>
      let m := combineAvg (row2 r)
      FOUR_OUTS.map (fun o => (chooseAct (pointM ((scoreSet o : ℤ) : ℚ)) (some m)).2)

/-- Stage-1 freeze moments as a function of the reroll budget and dice:
    the uniform average over the stage-2 fan-out, expressed through `row2`
    by the affinity of stage-2 values in the carried score. -/
def frz1 (r : ℕ) (d : List ℕ) : Moments :=
  shiftM ((scoreSet d : ℤ) : ℚ) (combineAvg (row2 r))

/-- Stage-1 best-moments table: entry `i` is the best moments of the stage-1
    state with reroll budget `r` and dice `FOUR_OUTS[i]`.  Certified against
    `solveState1` by `row1_eq`. -/
def row1 : ℕ → List Moments
  | 0 => FOUR_OUTS.map (fun d => frz1 0 d)
  | r + 1 =>
      let m := combineAvg (row1 r)
      FOUR_OUTS.map (fun d => (chooseAct (frz1 (r + 1) d) (some m)).2)

/-- Boolean gap test: two EVs are either exactly equal or at least `tol`
    apart. -/
def gapB (x y : ℚ) : Bool := (x == y) || decide (tol ≤ |x - y|)

/-- Exhaustive check that at every sprint state with rerolls remaining
    (budget 1..5, canonical dice, any carried score) the freeze EV and the
    reroll EV are either exactly equal or at least `tol` apart.  The stage-2
    gap at budget `r+1` is `avg(row2 r).ev - score(d)` and the stage-1 gap is
    `avg(row1 r).ev - frz1 (r+1) d .ev`, both independent of the carried
    score. -/
def gapChecks : Bool :=
  let t20 := row2 0
  let m20 := combineAvg t20
  let t21 := row2 1
  let m21 := combineAvg t21
  let t22 := row2 2
  let m22 := combineAvg t22
  let t23 := row2 3
  let m23 := combineAvg t23
  let t24 := row2 4
  let m24 := combineAvg t24
  let t10 := row1 0
  let m10 := combineAvg t10
  let t11 := row1 1
  let m11 := combineAvg t11
  let t12 := row1 2
  let m12 := combineAvg t12
  let t13 := row1 3
  let m13 := combineAvg t13
  let t14 := row1 4
  let m14 := combineAvg t14
  (FOUR_OUTS.all (fun d =>
      gapB m20.ev ((scoreSet d : ℤ) : ℚ) && gapB m21.ev ((scoreSet d : ℤ) : ℚ) &&
      gapB m22.ev ((scoreSet d : ℤ) : ℚ) && gapB m23.ev ((scoreSet d : ℤ) : ℚ) &&
      gapB m24.ev ((scoreSet d : ℤ) : ℚ))) &&
  (FOUR_OUTS.all (fun d =>
      gapB m10.ev (frz1 1 d).ev && gapB m11.ev (frz1 2 d).ev &&
      gapB m12.ev (frz1 3 d).ev && gapB m13.ev (frz1 4 d).ev &&
      gapB m14.ev (frz1 5 d).ev))

/-- Base-6 counts code with the count of face 1 as the most significant digit,
    so that the numeric order of codes is the lexicographic order that
    `std::map<array<int,6>, double>` keeps its keys in.  Adding one die of
    face `f` (`a[face-1]++` in `build_outcomes`) adds `6^(6-f)`. -/
def bumpFace (code face : ℕ) : ℕ := code + 6 ^ (6 - face)

/-- Merge of two code-sorted count lists, adding multiplicities of equal
    codes; the recursion is made structural with ample fuel. -/
def mergeCount (fuel : ℕ) (acc : List (ℕ × ℕ)) : List (ℕ × ℕ) → List (ℕ × ℕ) → List (ℕ × ℕ)
  | [], ys => acc.reverseAux ys
  | xs, [] => acc.reverseAux xs
  | x :: xs, y :: ys =>
      match fuel with
      | 0 => acc.reverseAux (x :: xs ++ y :: ys)
      | fuel + 1 =>
          if x.1 < y.1 then mergeCount fuel (x :: acc) xs (y :: ys)
          else if y.1 < x.1 then mergeCount fuel (y :: acc) (x :: xs) ys
          else mergeCount fuel ((x.1, x.2 + y.2) :: acc) xs ys

/-- The recursion of `build_outcomes` (lines 42-47): with `left` dice still to
    roll and accumulated counts `a`, visit `a[face-1]++ / recurse / undo` for
    each face; every leaf contributes one occurrence of its counts vector to
    the ordered map `m`.  The embedding returns the ordered map of the subtree
    directly, as a code-sorted `(counts code, multiplicity)` list, merging the
    six sub-maps; this is the same recursion tree with the map accumulation
    made explicit. -/
def outcomesGrouped : ℕ → ℕ → List (ℕ × ℕ)
  | 0, a => [(a, 1)]
  | n + 1, a =>
      (SIDES.map (fun f => outcomesGrouped n (bumpFace a f))).foldl
        (fun acc l => mergeCount 2000 [] acc l) []

/-- Decode a counts code back to the `Counts.c[1..6]` array of the source. -/
def decodeCounts (c : ℕ) : List ℕ :=
  [c / 6 ^ 5 % 6, c / 6 ^ 4 % 6, c / 6 ^ 3 % 6, c / 6 ^ 2 % 6, c / 6 % 6, c % 6]

/-- Table `outcomes_cache[n]` from `build_outcomes` (lines 38-56): the distinct
    counts vectors of `n` dice in the key order of the `std::map`, each paired
    with its probability (accumulated `1.0/total` per generating sequence,
    i.e. multiplicity over `6^n`).  The cache is only ever built for
    `1 ≤ n ≤ 5`; `outcomes_cache[0]` stays the empty vector, hence the guard. -/
def buildOutcomes (n : ℕ) : List (List ℕ × ℚ) :=
  if n = 0 then []
  else (outcomesGrouped n 0).map (fun p => (decodeCounts p.1, (p.2 : ℚ) / 6 ^ n))

/-- Count of face `face` in a counts vector, `cnt.c[face]` of the source. -/
def countGet (c : List ℕ) (face : ℕ) : ℕ := c.getD (face - 1) 0

/-- The frozen-sum loop shared by both phases of the long-jump solver: walk
    the faces in the given order taking `min(cnt.c[face], needed)` dice of
    each face until `freeze_count` dice are taken, accumulating
    `face * take`.  (The source breaks out of the loop once `needed = 0`; the
    fold simply takes 0 from the remaining faces, which is the same sum.) -/
def frozenFold (faces : List ℕ) (cnt : List ℕ) (fc : ℕ) : ℕ :=
  (faces.foldl
    (fun st face =>
      let take := min (countGet cnt face) st.1
      (st.1 - take, st.2 + face * take))
    (fc, 0)).2

/-- Frozen sum of the `fc` smallest dice of an outcome
    (`solve_runup_pre` lines 123-129). -/
def frozenLow (cnt : List ℕ) (fc : ℕ) : ℕ := frozenFold [1, 2, 3, 4, 5, 6] cnt fc

/-- Frozen sum of the `fc` largest dice of an outcome
    (`solve_jump_pre` lines 94-100). -/
def frozenHigh (cnt : List ℕ) (fc : ℕ) : ℕ := frozenFold [6, 5, 4, 3, 2, 1] cnt fc

/-- The per-outcome action scan of `solve_jump_pre` (lines 91-105): over
    freeze counts `1..n`, freeze the `fc` largest dice and continue with
    `n - fc`; strict improvement on EV, ties keep the earlier (smaller)
    freeze count; the initial best EV is the sentinel `-1e100` with
    `best_fc = 1`.  Returns the best moments and the chosen freeze count. -/
def jumpScan (rec : ℕ → Moments) (n : ℕ) (cnt : List ℕ) : Moments × ℕ :=
  (List.range' 1 n).foldl
    (fun acc fc =>
      let fs : ℚ := (frozenHigh cnt fc : ℕ)
      let tail := rec (n - fc)
      let e := fs + tail.ev
      if acc.1.ev < e then (⟨e, fs * fs + 2 * fs * tail.ev + tail.ev2⟩, fc) else acc)
    (⟨-(10 ^ 100 : ℚ), 0⟩, 1)

/-- One evaluation step of `solve_jump_pre` at `n ≥ 1` with the recursive
    calls abstracted: probability-weighted sum of the per-outcome best
    moments (lines 88-108). -/
def jumpBody (rec : ℕ → Moments) (n : ℕ) : Moments :=
  ⟨((buildOutcomes n).map (fun pr => pr.2 * (jumpScan rec n pr.1).1.ev)).sum,
   ((buildOutcomes n).map (fun pr => pr.2 * (jumpScan rec n pr.1).1.ev2)).sum⟩

/-- Fuel-indexed unfolding of `solve_jump_pre`; `jumpGo f n` is the value of
    `solve_jump_pre(n)` whenever `n ≤ f` (lemma `jumpGo_fuel`). -/
def jumpGo : ℕ → ℕ → Moments
  | 0 => fun n => if n = 0 then zeroM else jumpBody (fun _ => zeroM) n
  | f + 1 => fun n => if n = 0 then zeroM else jumpBody (jumpGo f) n

/-- Function `solve_jump_pre(n_rem)` (lines 85-110): expected-score moments of the
    jump phase rolling `n_rem` dice, freezing largest-first.  The memo table
    `memo_jump` of the source is the graph of this function. -/
def jumpPre (n : ℕ) : Moments := jumpGo n n

/-- Memoised table of jump values: `jumpRow n` lists
    `[solve_jump_pre 0, ..., solve_jump_pre n]` (lemma `jumpRow_getD`),
    mirroring how `memo_jump` fills bottom-up; used to evaluate jump values
    without exponential recomputation. -/
def jumpRow : ℕ → List Moments
  | 0 => [zeroM]
  | n + 1 =>
      let prev := jumpRow n
      prev ++ [jumpBody (fun m => prev.getD m zeroM) (n + 1)]

/-- The stop value used by `solve_runup_pre` at a state with `n` dice left to
    roll and frozen sum `s` (lines 115-116): `k = 5 - n_rem` dice have been
    frozen during the run-up and the jump phase is entered with `k` dice.
    The frozen sum `s` is in scope in the source but not used. -/
def runupStopM (n : ℕ) (s : ℕ) : Moments := jumpPre (5 - n)

/-- The per-outcome action scan of `solve_runup_pre` (lines 120-133): start
    from the stop action (`best_fc = 0`, moments `stopM`); for freeze counts
    `1..n` freeze the `fc` smallest dice, skip the choice entirely if the
    cumulative frozen sum would exceed 8, otherwise recurse and keep the
    choice on strict EV improvement. -/
def runupScan (rec : ℕ → ℕ → Moments) (n s : ℕ) (cnt : List ℕ) : Moments × ℕ :=
  (List.range' 1 n).foldl
    (fun acc fc =>
      let fs := frozenLow cnt fc
      if 8 < s + fs then acc
      else
        let tail := rec (n - fc) (s + fs)
        if acc.1.ev < tail.ev then (tail, fc) else acc)
    (runupStopM n s, 0)

/-- One evaluation step of `solve_runup_pre` with the recursive calls
    abstracted: probability-weighted sum of the per-outcome best moments
    (lines 117-136).  At `n = 0` the outcome list is empty and the state
    evaluates to zero moments, exactly as in the source. -/
def runupBody (rec : ℕ → ℕ → Moments) (n s : ℕ) : Moments :=
  ⟨((buildOutcomes n).map (fun pr => pr.2 * (runupScan rec n s pr.1).1.ev)).sum,
   ((buildOutcomes n).map (fun pr => pr.2 * (runupScan rec n s pr.1).1.ev2)).sum⟩

/-- Fuel-indexed unfolding of `solve_runup_pre`; faithful whenever `n ≤ fuel`. -/
def runupGo : ℕ → ℕ → ℕ → Moments
  | 0 => fun n s => if 8 < s then zeroM else runupBody (fun _ _ => zeroM) n s
  | f + 1 => fun n s => if 8 < s then zeroM else runupBody (runupGo f) n s

/-- Function `solve_runup_pre(n_rem, s)` (lines 112-138): expected-score moments of the
    run-up phase with `n_rem` dice left and frozen sum `s`; returns zero
    moments immediately when `s > 8` (line 113). -/
def runupPre (n s : ℕ) : Moments := runupGo n n s

/-- One recursive call of `solve_runup_pre` as a relation between states
    `(n_rem, s)`: the body runs (so `s ≤ 8`), some outcome of `n_rem` dice is
    drawn, and a freeze count `1 ≤ fc ≤ n_rem` passes the ceiling guard
    `s + frozen_sum ≤ 8` (line 130), producing the callee state. -/
def RunupCall (p q : ℕ × ℕ) : Prop :=
  p.2 ≤ 8 ∧
  ∃ pr ∈ buildOutcomes p.1, ∃ fc, 1 ≤ fc ∧ fc ≤ p.1 ∧
    p.2 + frozenLow pr.1 fc ≤ 8 ∧
    q = (p.1 - fc, p.2 + frozenLow pr.1 fc)

/-- Reachability along recursive calls of `solve_runup_pre`. -/
def RunupReach (p q : ℕ × ℕ) : Prop := Relation.ReflTransGen RunupCall p q

/-- Tail-recursive length (for long lists in checks). -/
def lengthB {α : Type} (l : List α) : ℕ := l.foldl (fun k _ => k + 1) 0

/-- Boolean strict-ascending-chain test on a code list. -/
def chainLtB : List ℕ → Bool
  | [] => true
  | [_] => true
  | x :: y :: xs => decide (x < y) && chainLtB (y :: xs)

/-- Combined long-jump enumeration check: for `n = 1..5` the outcome table
    has `C(n+5,5)` entries, its keys are strictly ascending codes (hence
    distinct), all codes are in range (so decoding is injective), and the
    multiplicities sum to `6^n`. -/
def jumpEnumCheck : Bool :=
  let b1 := outcomesGrouped 1 0
  let b2 := outcomesGrouped 2 0
  let b3 := outcomesGrouped 3 0
  let b4 := outcomesGrouped 4 0
  let b5 := outcomesGrouped 5 0
  (lengthB b1 == 6) && (lengthB b2 == 21) && (lengthB b3 == 56) &&
  (lengthB b4 == 126) && (lengthB b5 == 252) &&
  chainLtB (b1.map Prod.fst) && chainLtB (b2.map Prod.fst) &&
  chainLtB (b3.map Prod.fst) && chainLtB (b4.map Prod.fst) &&
  chainLtB (b5.map Prod.fst) &&
  (b1.map Prod.fst).all (fun c => c < 6 ^ 6) &&
  (b2.map Prod.fst).all (fun c => c < 6 ^ 6) &&
  (b3.map Prod.fst).all (fun c => c < 6 ^ 6) &&
  (b4.map Prod.fst).all (fun c => c < 6 ^ 6) &&
  (b5.map Prod.fst).all (fun c => c < 6 ^ 6) &&
  ((b1.map Prod.snd).foldl (fun a k => a + k) 0 == 6 ^ 1) &&
  ((b2.map Prod.snd).foldl (fun a k => a + k) 0 == 6 ^ 2) &&
  ((b3.map Prod.snd).foldl (fun a k => a + k) 0 == 6 ^ 3) &&
  ((b4.map Prod.snd).foldl (fun a k => a + k) 0 == 6 ^ 4) &&
  ((b5.map Prod.snd).foldl (fun a k => a + k) 0 == 6 ^ 5)

/-- Check certifying the literal `FOUR_OUTS` against the source construction. -/
def sprintEnumCheck : Bool := fourOutsCalc == FOUR_OUTS

/-- Shift of a whole solve result by a constant added to the final score:
    both moment fields shift, the chosen action is unchanged. -/
def shiftRes (s : ℚ) (R : SolveRes) : SolveRes :=
  ⟨shiftM s R.best, shiftM s R.freeze_m, R.reroll_m.map (shiftM s), R.best_action⟩

/-! ## Basic bridges -/

lemma sd100m_eq_varClamp (m : Moments) : sd100m m = Real.sqrt ((varClamp m : ℚ) : ℝ) := by
  unfold sd100m varClamp
  push_cast
  rfl

lemma sdLJ_eq_sd100m (m : Moments) : sdLJ m = sd100m m := rfl

/-- Comparing the standard deviations of the source is the same as comparing
    the clamped variances, which is what the executable solver does. -/
lemma sd_lt_iff_varClamp_lt (a b : Moments) :
    sd100m a < sd100m b ↔ varClamp a < varClamp b := by
  rw [sd100m_eq_varClamp, sd100m_eq_varClamp]
  rw [Real.sqrt_lt_sqrt_iff (by exact_mod_cast le_max_left 0 _)]
  exact_mod_cast Iff.rfl

lemma lengthB_eq {α : Type} (l : List α) : lengthB l = l.length := by
  have h : ∀ (l : List α) (k : ℕ), l.foldl (fun k _ => k + 1) k = k + l.length := by
    intro l
    induction l with
    | nil => intro k; simp
    | cons x xs ih => intro k; simp [List.foldl, ih]; omega
  simpa using h l 0

lemma chainLtB_chain : ∀ l : List ℕ, chainLtB l = true → List.Chain' (· < ·) l
  | [] , _ => List.chain'_nil
  | [x], _ => List.chain'_singleton x
  | x :: y :: xs, h => by
      unfold chainLtB at h
      rw [Bool.and_eq_true, decide_eq_true_eq] at h
      exact List.Chain'.cons h.1 (chainLtB_chain (y :: xs) h.2)

lemma chainLt_nodup {l : List ℕ} (h : List.Chain' (· < ·) l) : l.Nodup := by
  have hp : List.Pairwise (· < ·) l := List.chain'_iff_pairwise.mp h
  exact hp.imp Nat.ne_of_lt

lemma decodeCounts_inj {a b : ℕ} (ha : a < 6 ^ 6) (hb : b < 6 ^ 6)
    (h : decodeCounts a = decodeCounts b) : a = b := by
  unfold decodeCounts at h
  simp only [List.cons.injEq, and_true] at h
  obtain ⟨h5, h4, h3, h2, h1, h0⟩ := h
  norm_num at h5 h4 h3 h2 h1 ha hb
  omega

/-! ## Evaluation certificates -/

theorem sprintEnumCheck_true : sprintEnumCheck = true := rfl

theorem jumpEnumCheck_true : jumpEnumCheck = true := rfl

theorem gapChecks_true : gapChecks = true := by with_unfolding_all rfl

/-- The literal `FOUR_OUTS` list is the one `ensure_four_outs` computes. -/
lemma four_outs_spec : FOUR_OUTS = fourOutsCalc := by
  have h : (fourOutsCalc == FOUR_OUTS) = true := sprintEnumCheck_true
  exact (eq_of_beq h).symm

/-! ## Sprint: algebra of averages and shifts -/

lemma qsum_map_add {α : Type} (l : List α) (f g : α → ℚ) :
    (l.map (fun x => f x + g x)).sum = (l.map f).sum + (l.map g).sum := by
  induction l with
  | nil => simp
  | cons x xs ih => simp [ih]; ring

lemma qsum_map_mul_left {α : Type} (l : List α) (c : ℚ) (f : α → ℚ) :
    (l.map (fun x => c * f x)).sum = c * (l.map f).sum := by
  induction l with
  | nil => simp
  | cons x xs ih => simp [ih]; ring

lemma qsum_map_const {α : Type} (l : List α) (c : ℚ) :
    (l.map (fun _ => c)).sum = l.length * c := by
  induction l with
  | nil => simp
  | cons x xs ih => simp [ih]; ring

/-- The accumulated `w * ev` sums of `combine_avg` are plain averages. -/
lemma combineAvg_eq (ms : List Moments) :
    combineAvg ms = ⟨(ms.map Moments.ev).sum / ms.length, (ms.map Moments.ev2).sum / ms.length⟩ := by
  unfold combineAvg
  rw [show (fun m : Moments => 1 / (ms.length : ℚ) * m.ev) = fun m : Moments => (1 / (ms.length : ℚ)) * Moments.ev m from rfl]
  rw [qsum_map_mul_left ms (1 / (ms.length : ℚ)) Moments.ev,
      qsum_map_mul_left ms (1 / (ms.length : ℚ)) Moments.ev2]
  congr 1 <;> ring

lemma shiftM_ev (s : ℚ) (m : Moments) : (shiftM s m).ev = s + m.ev := rfl

lemma shiftM_zero (m : Moments) : shiftM 0 m = m := by
  unfold shiftM
  cases m with
  | mk a b => simp

lemma shiftM_pointM (s t : ℚ) : shiftM s (pointM t) = pointM (s + t) := by
  unfold shiftM pointM
  simp only [Moments.mk.injEq]
  constructor <;> ring

lemma varClamp_shiftM (s : ℚ) (m : Moments) : varClamp (shiftM s m) = varClamp m := by
  unfold varClamp shiftM
  congr 1
  ring

lemma combineAvg_map_shift {α : Type} (l : List α) (hl : l.length ≠ 0) (s : ℚ) (f : α → Moments) :
    combineAvg (l.map (fun x => shiftM s (f x))) = shiftM s (combineAvg (l.map f)) := by
  have hn : ((l.length : ℚ)) ≠ 0 := Nat.cast_ne_zero.mpr hl
  rw [combineAvg_eq, combineAvg_eq]
  unfold shiftM
  simp only [List.map_map, List.length_map, Function.comp_def, Moments.mk.injEq]
  constructor
  · have h1 := qsum_map_add l (fun _ => s) (fun x => (f x).ev)
    rw [qsum_map_const] at h1
    rw [h1]
    field_simp
    ring
  · have h2 := qsum_map_add l (fun x => s * s + 2 * s * (f x).ev) (fun x => (f x).ev2)
    have h3 := qsum_map_add l (fun _ => s * s) (fun x => 2 * s * (f x).ev)
    rw [qsum_map_const] at h3
    rw [qsum_map_mul_left l (2 * s) (fun x => (f x).ev)] at h3
    rw [h3] at h2
    rw [h2]
    field_simp
    ring

lemma chooseAct_shift (s : ℚ) (fm rm : Moments) :
    chooseAct (shiftM s fm) (some (shiftM s rm)) =
      ((chooseAct fm (some rm)).1, shiftM s (chooseAct fm (some rm)).2) := by
  have habs : (shiftM s rm).ev - (shiftM s fm).ev = rm.ev - fm.ev := by
    rw [shiftM_ev, shiftM_ev]
    ring
  have hcond : ((shiftM s fm).ev < (shiftM s rm).ev ∨
        (|(shiftM s rm).ev - (shiftM s fm).ev| < tol ∧
          varClamp (shiftM s rm) < varClamp (shiftM s fm))) ↔
      (fm.ev < rm.ev ∨ (|rm.ev - fm.ev| < tol ∧ varClamp rm < varClamp fm)) := by
    rw [varClamp_shiftM, varClamp_shiftM, habs, shiftM_ev, shiftM_ev, add_lt_add_iff_left]
  simp only [chooseAct]
  by_cases h : fm.ev < rm.ev ∨ (|rm.ev - fm.ev| < tol ∧ varClamp rm < varClamp fm)
  · rw [if_pos h, if_pos (hcond.mpr h)]
  · rw [if_neg h, if_neg (fun hc => h (hcond.mp hc))]

/-! ## Sprint: stage-2 values are affine in the carried score -/

lemma four_outs_len_ne : FOUR_OUTS.length ≠ 0 := by decide

lemma solveState2_shift (r : ℕ) (d : List ℕ) (s1 : ℤ) :
    solveState2 r d s1 = shiftRes (s1 : ℚ) (solveState2 r d 0) := by
  induction r generalizing d with
  | zero =>
      simp only [solveState2, shiftRes, Option.map_none']
      have hp : pointM ((s1 + scoreSet d : ℤ) : ℚ) =
          shiftM (s1 : ℚ) (pointM ((0 + scoreSet d : ℤ) : ℚ)) := by
        rw [shiftM_pointM]
        push_cast
        ring_nf
      rw [hp]
  | succ r ih =>
      simp only [solveState2, shiftRes, Option.map_some']
      have hmap : (FOUR_OUTS.map (fun o => (solveState2 r o s1).best)) =
          (FOUR_OUTS.map (fun o => shiftM (s1 : ℚ) ((solveState2 r o 0).best))) :=
        List.map_congr_left (fun o _ => by rw [ih o]; rfl)
      have hrm : combineAvg (FOUR_OUTS.map (fun o => (solveState2 r o s1).best)) =
          shiftM (s1 : ℚ) (combineAvg (FOUR_OUTS.map (fun o => (solveState2 r o 0).best))) := by
        rw [hmap]
        exact combineAvg_map_shift FOUR_OUTS four_outs_len_ne (s1 : ℚ) _
      have hp : pointM ((s1 + scoreSet d : ℤ) : ℚ) =
          shiftM (s1 : ℚ) (pointM ((0 + scoreSet d : ℤ) : ℚ)) := by
        rw [shiftM_pointM]
        push_cast
        ring_nf
      rw [hrm, hp, chooseAct_shift]

lemma row2_eq (r : ℕ) : row2 r = FOUR_OUTS.map (fun o => (solveState2 r o 0).best) := by
  induction r with
  | zero =>
      simp only [row2, solveState2]
      exact List.map_congr_left (fun o _ => by norm_num)
  | succ r ih =>
      simp only [row2, solveState2]
      exact List.map_congr_left (fun o _ => by rw [← ih]; norm_num)

lemma solveState2_freeze (r : ℕ) (d : List ℕ) (s1 : ℤ) :
    (solveState2 r d s1).freeze_m = pointM ((s1 + scoreSet d : ℤ) : ℚ) := by
  cases r <;> rfl

lemma solveState2_reroll (r : ℕ) (d : List ℕ) (s1 : ℤ) :
    (solveState2 (r + 1) d s1).reroll_m = some (shiftM (s1 : ℚ) (combineAvg (row2 r))) := by
  rw [solveState2_shift, row2_eq]
  rfl

lemma solveState2_best (r : ℕ) (d : List ℕ) (s1 : ℤ) :
    (solveState2 (r + 1) d s1).best =
      (chooseAct (pointM ((s1 + scoreSet d : ℤ) : ℚ))
        (some (shiftM (s1 : ℚ) (combineAvg (row2 r))))).2 := by
  have h1 : (solveState2 (r + 1) d s1).best =
      shiftM (s1 : ℚ) ((solveState2 (r + 1) d 0).best) := by
    rw [solveState2_shift]
    rfl
  have h2 : (solveState2 (r + 1) d 0).best =
      (chooseAct (pointM ((0 + scoreSet d : ℤ) : ℚ)) (some (combineAvg (row2 r)))).2 := by
    simp only [solveState2]
    rw [← row2_eq]
  have hp : pointM ((s1 + scoreSet d : ℤ) : ℚ) =
      shiftM (s1 : ℚ) (pointM ((0 + scoreSet d : ℤ) : ℚ)) := by
    rw [shiftM_pointM]
    push_cast
    ring_nf
  rw [h1, h2, hp, chooseAct_shift]

lemma solveState2_action (r : ℕ) (d : List ℕ) (s1 : ℤ) :
    (solveState2 (r + 1) d s1).best_action =
      (chooseAct (pointM ((s1 + scoreSet d : ℤ) : ℚ))
        (some (shiftM (s1 : ℚ) (combineAvg (row2 r))))).1 := by
  have h1 : (solveState2 (r + 1) d s1).best_action = (solveState2 (r + 1) d 0).best_action := by
    rw [solveState2_shift]
    rfl
  have h2 : (solveState2 (r + 1) d 0).best_action =
      (chooseAct (pointM ((0 + scoreSet d : ℤ) : ℚ)) (some (combineAvg (row2 r)))).1 := by
    simp only [solveState2]
    rw [← row2_eq]
  have hp : pointM ((s1 + scoreSet d : ℤ) : ℚ) =
      shiftM (s1 : ℚ) (pointM ((0 + scoreSet d : ℤ) : ℚ)) := by
    rw [shiftM_pointM]
    push_cast
    ring_nf
  rw [h1, h2, hp, chooseAct_shift]

/-! ## Sprint: stage-1 characterisation -/

lemma freeze1_aux (r : ℕ) (d : List ℕ) :
    combineAvg (FOUR_OUTS.map (fun o => (solveState2 r o (scoreSet d)).best)) = frz1 r d := by
  have hmap : FOUR_OUTS.map (fun o => (solveState2 r o (scoreSet d)).best) =
      FOUR_OUTS.map (fun o => shiftM ((scoreSet d : ℤ) : ℚ) ((solveState2 r o 0).best)) :=
    List.map_congr_left (fun o _ => by rw [solveState2_shift r o (scoreSet d)]; rfl)
  rw [hmap, combineAvg_map_shift FOUR_OUTS four_outs_len_ne, ← row2_eq]
  rfl

lemma solveState1_freeze (r : ℕ) (d : List ℕ) :
    (solveState1 r d).freeze_m = frz1 r d := by
  cases r <;> simp only [solveState1] <;> exact freeze1_aux _ d

lemma row1_eq (r : ℕ) : row1 r = FOUR_OUTS.map (fun d => (solveState1 r d).best) := by
  induction r with
  | zero =>
      simp only [row1, solveState1]
      exact List.map_congr_left (fun d _ => (freeze1_aux 0 d).symm)
  | succ r ih =>
      simp only [row1, solveState1]
      exact List.map_congr_left (fun d _ => by rw [freeze1_aux (r + 1) d, ← ih])

lemma solveState1_reroll (r : ℕ) (d : List ℕ) :
    (solveState1 (r + 1) d).reroll_m = some (combineAvg (row1 r)) := by
  simp only [solveState1]
  rw [← row1_eq]

lemma solveState1_best (r : ℕ) (d : List ℕ) :
    (solveState1 (r + 1) d).best =
      (chooseAct (frz1 (r + 1) d) (some (combineAvg (row1 r)))).2 := by
  simp only [solveState1]
  rw [freeze1_aux (r + 1) d, ← row1_eq]

lemma solveState1_action (r : ℕ) (d : List ℕ) :
    (solveState1 (r + 1) d).best_action =
      (chooseAct (frz1 (r + 1) d) (some (combineAvg (row1 r)))).1 := by
  simp only [solveState1]
  rw [freeze1_aux (r + 1) d, ← row1_eq]

/-! ## Sprint: the no-near-tie property of all reachable states -/

lemma gapB_elim {x y : ℚ} (h : gapB x y = true) : x = y ∨ tol ≤ |x - y| := by
  unfold gapB at h
  rw [Bool.or_eq_true, beq_iff_eq, decide_eq_true_eq] at h
  exact h

lemma gap2 (r : ℕ) (hr : r < 5) (d : List ℕ) (hd : d ∈ FOUR_OUTS) :
    (combineAvg (row2 r)).ev = ((scoreSet d : ℤ) : ℚ) ∨
      tol ≤ |(combineAvg (row2 r)).ev - ((scoreSet d : ℤ) : ℚ)| := by
  have h := gapChecks_true
  unfold gapChecks at h
  simp only [Bool.and_eq_true, List.all_eq_true] at h
  have hd2 := h.1 d hd
  simp only [Bool.and_eq_true] at hd2
  interval_cases r
  · exact gapB_elim hd2.1.1.1.1
  · exact gapB_elim hd2.1.1.1.2
  · exact gapB_elim hd2.1.1.2
  · exact gapB_elim hd2.1.2
  · exact gapB_elim hd2.2

lemma gap1 (r : ℕ) (hr : r < 5) (d : List ℕ) (hd : d ∈ FOUR_OUTS) :
    (combineAvg (row1 r)).ev = (frz1 (r + 1) d).ev ∨
      tol ≤ |(combineAvg (row1 r)).ev - (frz1 (r + 1) d).ev| := by
  have h := gapChecks_true
  unfold gapChecks at h
  simp only [Bool.and_eq_true, List.all_eq_true] at h
  have hd1 := h.2 d hd
  simp only [Bool.and_eq_true] at hd1
  interval_cases r
  · exact gapB_elim hd1.1.1.1.1
  · exact gapB_elim hd1.1.1.1.2
  · exact gapB_elim hd1.1.1.2
  · exact gapB_elim hd1.1.2
  · exact gapB_elim hd1.2

lemma pointM_ev (x : ℚ) : (pointM x).ev = x := rfl

lemma state2_gap (r : ℕ) (d : List ℕ) (hd : d ∈ FOUR_OUTS) (s1 : ℤ) (h5 : r + 1 ≤ 5) :
    ∀ rm, (solveState2 (r + 1) d s1).reroll_m = some rm →
      rm.ev = (solveState2 (r + 1) d s1).freeze_m.ev ∨
        tol ≤ |rm.ev - (solveState2 (r + 1) d s1).freeze_m.ev| := by
  intro rm hrm
  rw [solveState2_reroll] at hrm
  injection hrm with hrm
  subst hrm
  rw [solveState2_freeze]
  have hfm : (pointM ((s1 + scoreSet d : ℤ) : ℚ)).ev = (s1 : ℚ) + ((scoreSet d : ℤ) : ℚ) := by
    rw [pointM_ev]
    push_cast
    ring
  have hev : (shiftM (s1 : ℚ) (combineAvg (row2 r))).ev = (s1 : ℚ) + (combineAvg (row2 r)).ev :=
    shiftM_ev _ _
  rcases gap2 r (by omega) d hd with h | h
  · left
    rw [hfm, hev, h]
  · right
    rw [hfm, hev]
    have harg : (s1 : ℚ) + (combineAvg (row2 r)).ev - ((s1 : ℚ) + ((scoreSet d : ℤ) : ℚ)) =
        (combineAvg (row2 r)).ev - ((scoreSet d : ℤ) : ℚ) := by ring
    rw [harg]
    exact h

lemma state1_gap (r : ℕ) (d : List ℕ) (hd : d ∈ FOUR_OUTS) (h5 : r + 1 ≤ 5) :
    ∀ rm, (solveState1 (r + 1) d).reroll_m = some rm →
      rm.ev = (solveState1 (r + 1) d).freeze_m.ev ∨
        tol ≤ |rm.ev - (solveState1 (r + 1) d).freeze_m.ev| := by
  intro rm hrm
  rw [solveState1_reroll] at hrm
  injection hrm with hrm
  subst hrm
  rw [solveState1_freeze]
  exact gap1 r (by omega) d hd

/-- When a state's freeze and reroll EVs are not within the tolerance band
    (other than being exactly equal), the chosen best EV is their maximum. -/
lemma chooseAct_ev_max {fm rm : Moments}
    (hgap : rm.ev = fm.ev ∨ tol ≤ |rm.ev - fm.ev|) :
    (chooseAct fm (some rm)).2.ev = max fm.ev rm.ev := by
  simp only [chooseAct]
  split_ifs with h
  · rcases h with h | ⟨ht, _⟩
    · simp [max_eq_right (le_of_lt h)]
    · rcases hgap with he | hge
      · simp [he]
      · exact absurd ht (not_lt.mpr hge)
  · push_neg at h
    simp [max_eq_left h.1]

/-! ## Sprint: monotonicity in the reroll budget -/

lemma avg_ev_mono {α : Type} (l : List α) (hl : l.length ≠ 0) (f g : α → Moments)
    (h : ∀ x ∈ l, (f x).ev ≤ (g x).ev) :
    (combineAvg (l.map f)).ev ≤ (combineAvg (l.map g)).ev := by
  rw [combineAvg_eq, combineAvg_eq]
  simp only [List.map_map, List.length_map, Function.comp_def]
  have hs : (List.map (fun x => (f x).ev) l).sum ≤ (List.map (fun x => (g x).ev) l).sum :=
    List.sum_le_sum h
  have hn : (0 : ℚ) < (l.length : ℚ) := by
    exact_mod_cast Nat.pos_of_ne_zero hl
  exact (div_le_div_iff_of_pos_right hn).mpr hs

lemma best2_zero_ev (d : List ℕ) (s1 : ℤ) :
    (solveState2 0 d s1).best.ev = ((s1 + scoreSet d : ℤ) : ℚ) := rfl

lemma best2_ev_eq_max (r : ℕ) (d : List ℕ) (hd : d ∈ FOUR_OUTS) (h5 : r + 1 ≤ 5) :
    (solveState2 (r + 1) d 0).best.ev =
      max ((scoreSet d : ℤ) : ℚ) (combineAvg (row2 r)).ev := by
  have hgap := state2_gap r d hd 0 h5 _ (solveState2_reroll r d 0)
  rw [solveState2_freeze] at hgap
  rw [solveState2_best, chooseAct_ev_max hgap, pointM_ev, shiftM_ev]
  norm_num

lemma mono2 : ∀ r : ℕ, r + 1 ≤ 5 → ∀ d ∈ FOUR_OUTS,
    (solveState2 r d 0).best.ev ≤ (solveState2 (r + 1) d 0).best.ev := by
  intro r
  induction r with
  | zero =>
      intro h5 d hd
      rw [best2_ev_eq_max 0 d hd h5, best2_zero_ev]
      norm_num
  | succ r ih =>
      intro h5 d hd
      rw [best2_ev_eq_max r d hd (by omega), best2_ev_eq_max (r + 1) d hd h5]
      apply max_le_max (le_refl _)
      rw [row2_eq r, row2_eq (r + 1)]
      exact avg_ev_mono FOUR_OUTS four_outs_len_ne _ _ (fun o ho => ih (by omega) o ho)

lemma avgrow2_mono (r : ℕ) (h5 : r + 1 ≤ 5) :
    (combineAvg (row2 r)).ev ≤ (combineAvg (row2 (r + 1))).ev := by
  rw [row2_eq r, row2_eq (r + 1)]
  exact avg_ev_mono FOUR_OUTS four_outs_len_ne _ _ (fun o ho => mono2 r h5 o ho)

lemma frz1_ev (r : ℕ) (d : List ℕ) :
    (frz1 r d).ev = ((scoreSet d : ℤ) : ℚ) + (combineAvg (row2 r)).ev := rfl

lemma best1_zero_ev (d : List ℕ) : (solveState1 0 d).best.ev = (frz1 0 d).ev := by
  have h : (solveState1 0 d).best = frz1 0 d := freeze1_aux 0 d
  rw [h]

lemma best1_ev_eq_max (r : ℕ) (d : List ℕ) (hd : d ∈ FOUR_OUTS) (h5 : r + 1 ≤ 5) :
    (solveState1 (r + 1) d).best.ev = max (frz1 (r + 1) d).ev (combineAvg (row1 r)).ev := by
  have hgap := state1_gap r d hd h5 _ (solveState1_reroll r d)
  rw [solveState1_freeze] at hgap
  rw [solveState1_best, chooseAct_ev_max hgap]

lemma mono1 : ∀ r : ℕ, r + 1 ≤ 5 → ∀ d ∈ FOUR_OUTS,
    (solveState1 r d).best.ev ≤ (solveState1 (r + 1) d).best.ev := by
  intro r
  induction r with
  | zero =>
      intro h5 d hd
      rw [best1_ev_eq_max 0 d hd h5, best1_zero_ev]
      refine le_trans ?_ (le_max_left _ _)
      rw [frz1_ev, frz1_ev]
      exact add_le_add_left (avgrow2_mono 0 (by omega)) _
  | succ r ih =>
      intro h5 d hd
      rw [best1_ev_eq_max r d hd (by omega), best1_ev_eq_max (r + 1) d hd h5]
      apply max_le_max
      · rw [frz1_ev, frz1_ev]
        exact add_le_add_left (avgrow2_mono (r + 1) h5) _
      · rw [row1_eq r, row1_eq (r + 1)]
        exact avg_ev_mono FOUR_OUTS four_outs_len_ne _ _ (fun o ho => ih (by omega) o ho)

lemma best2_shift_ev (r : ℕ) (d : List ℕ) (s1 : ℤ) :
    (solveState2 r d s1).best.ev = (s1 : ℚ) + (solveState2 r d 0).best.ev := by
  rw [solveState2_shift r d s1]
  rfl

/-! ## Claim C4: terminal freeze moments of stage-2 sprint states -/

/-- Claim C4 — for every stage-2 sprint state the freeze moments are the point
    distribution of `set1_score + score_set(dice)`: the EV is that total and
    the second moment its square; and `score_set` applies the face-6 reversal,
    so the dice multiset 6,6,5,5 scores 5 + 5 - 6 - 6 = -2. -/
theorem c4_freeze_terminal :
    (∀ (r : ℕ) (d : List ℕ) (s1 : ℤ),
      (solveState2 r d s1).freeze_m.ev = ((s1 + scoreSet d : ℤ) : ℚ) ∧
      (solveState2 r d s1).freeze_m.ev2 = ((s1 + scoreSet d : ℤ) : ℚ) ^ 2) ∧
    scoreSet [5, 5, 6, 6] = -2 := by
  constructor
  · intro r d s1
    rw [solveState2_freeze]
    constructor
    · rfl
    · show ((s1 + scoreSet d : ℤ) : ℚ) * ((s1 + scoreSet d : ℤ) : ℚ) = _
      ring
  · decide

/-! ## Claim C5: the deterministic tie-break policy -/

lemma tol_pos_aux : (0 : ℚ) < tol := by norm_num [tol]

theorem c5_tiebreak (r : ℕ) (d : List ℕ) (s1 : ℤ) (hd : d ∈ FOUR_OUTS)
    (hr1 : 1 ≤ r) (hr5 : r ≤ 5) :
    (∃ rm, (solveState2 r d s1).reroll_m = some rm) ∧
    (∃ rm, (solveState1 r d).reroll_m = some rm) ∧
    tieBreakSpec (solveState2 r d s1) ∧ tieBreakSpec (solveState1 r d) := by
  obtain ⟨r', rfl⟩ : ∃ r', r = r' + 1 := ⟨r - 1, by omega⟩
  refine ⟨⟨_, solveState2_reroll r' d s1⟩, ⟨_, solveState1_reroll r' d⟩, ?_, ?_⟩
  · intro rm hrm
    have hgap := state2_gap r' d hd s1 (by omega) rm hrm
    have hact := solveState2_action r' d s1
    rw [solveState2_reroll] at hrm
    injection hrm with hrm
    subst hrm
    rw [solveState2_freeze] at hgap ⊢
    constructor
    · intro hnt
      have hne : tol ≤ |(shiftM (s1 : ℚ) (combineAvg (row2 r'))).ev -
          (pointM ((s1 + scoreSet d : ℤ) : ℚ)).ev| := by
        rcases hgap with he | hge
        · exact absurd (by rw [he]; simpa using tol_pos_aux) hnt
        · exact hge
      constructor
      · intro hlt
        rw [hact]
        simp only [chooseAct]
        rw [if_pos (Or.inl hlt)]
      · intro hlt
        rw [hact]
        simp only [chooseAct]
        rw [if_neg ?hneg]
        case hneg =>
          rintro (hc | ⟨hc, _⟩)
          · exact absurd hc (not_lt.mpr (le_of_lt hlt))
          · exact absurd hc (not_lt.mpr hne)
    · intro ht
      have heq : (shiftM (s1 : ℚ) (combineAvg (row2 r'))).ev =
          (pointM ((s1 + scoreSet d : ℤ) : ℚ)).ev := by
        rcases hgap with he | hge
        · exact he
        · exact absurd ht (not_lt.mpr hge)
      refine ⟨?_, ?_, ?_⟩
      · intro hsd
        have hv := (sd_lt_iff_varClamp_lt _ _).mp hsd
        rw [hact]
        simp only [chooseAct]
        rw [if_pos (Or.inr ⟨ht, hv⟩)]
      · intro hsd
        have hv := (sd_lt_iff_varClamp_lt _ _).mp hsd
        rw [hact]
        simp only [chooseAct]
        rw [if_neg ?hneg2]
        case hneg2 =>
          rintro (hc | ⟨_, hc⟩)
          · rw [heq] at hc
            exact lt_irrefl _ hc
          · exact absurd hc (not_lt.mpr (le_of_lt hv))
      · intro hsd
        rw [hact]
        simp only [chooseAct]
        rw [if_neg ?hneg3]
        case hneg3 =>
          rintro (hc | ⟨_, hc⟩)
          · rw [heq] at hc
            exact lt_irrefl _ hc
          · have := (sd_lt_iff_varClamp_lt _ _).mpr hc
            rw [hsd] at this
            exact lt_irrefl _ this
  · intro rm hrm
    have hgap := state1_gap r' d hd (by omega) rm hrm
    have hact := solveState1_action r' d
    rw [solveState1_reroll] at hrm
    injection hrm with hrm
    subst hrm
    rw [solveState1_freeze] at hgap ⊢
    constructor
    · intro hnt
      have hne : tol ≤ |(combineAvg (row1 r')).ev - (frz1 (r' + 1) d).ev| := by
        rcases hgap with he | hge
        · exact absurd (by rw [he]; simpa using tol_pos_aux) hnt
        · exact hge
      constructor
      · intro hlt
        rw [hact]
        simp only [chooseAct]
        rw [if_pos (Or.inl hlt)]
      · intro hlt
        rw [hact]
        simp only [chooseAct]
        rw [if_neg ?hneg4]
        case hneg4 =>
          rintro (hc | ⟨hc, _⟩)
          · exact absurd hc (not_lt.mpr (le_of_lt hlt))
          · exact absurd hc (not_lt.mpr hne)
    · intro ht
      have heq : (combineAvg (row1 r')).ev = (frz1 (r' + 1) d).ev := by
        rcases hgap with he | hge
        · exact he
        · exact absurd ht (not_lt.mpr hge)
      refine ⟨?_, ?_, ?_⟩
      · intro hsd
        have hv := (sd_lt_iff_varClamp_lt _ _).mp hsd
        rw [hact]
        simp only [chooseAct]
        rw [if_pos (Or.inr ⟨ht, hv⟩)]
      · intro hsd
        have hv := (sd_lt_iff_varClamp_lt _ _).mp hsd
        rw [hact]
        simp only [chooseAct]
        rw [if_neg ?hneg5]
        case hneg5 =>
          rintro (hc | ⟨_, hc⟩)
          · rw [heq] at hc
            exact lt_irrefl _ hc
          · exact absurd hc (not_lt.mpr (le_of_lt hv))
      · intro hsd
        rw [hact]
        simp only [chooseAct]
        rw [if_neg ?hneg6]
        case hneg6 =>
          rintro (hc | ⟨_, hc⟩)
          · rw [heq] at hc
            exact lt_irrefl _ hc
          · have := (sd_lt_iff_varClamp_lt _ _).mpr hc
            rw [hsd] at this
            exact lt_irrefl _ this

theorem c5_tiebreak_witness :
    ([1, 1, 1, 3] ∈ FOUR_OUTS ∧ 1 ≤ 1 ∧ (1 : ℕ) ≤ 5) ∧
    (∃ rm, (solveState2 1 [1, 1, 1, 3] 0).reroll_m = some rm ∧
      |rm.ev - (solveState2 1 [1, 1, 1, 3] 0).freeze_m.ev| < tol ∧
      sd100m (solveState2 1 [1, 1, 1, 3] 0).freeze_m < sd100m rm) ∧
    (solveState2 1 [1, 1, 1, 3] 0).best_action = "freeze" := by
  have hmem : [1, 1, 1, 3] ∈ FOUR_OUTS := by decide
  have hc5 := c5_tiebreak 1 [1, 1, 1, 3] 0 hmem (le_refl 1) (by norm_num)
  have hrm := solveState2_reroll 0 [1, 1, 1, 3] 0
  have ht : |(shiftM ((0 : ℤ) : ℚ) (combineAvg (row2 0))).ev -
      (solveState2 1 [1, 1, 1, 3] 0).freeze_m.ev| < tol := by
    rw [solveState2_freeze]
    with_unfolding_all decide
  have hvar : varClamp (solveState2 1 [1, 1, 1, 3] 0).freeze_m <
      varClamp (shiftM ((0 : ℤ) : ℚ) (combineAvg (row2 0))) := by
    rw [solveState2_freeze]
    with_unfolding_all decide
  have hsd := (sd_lt_iff_varClamp_lt _ _).mpr hvar
  have hact := ((hc5.2.2.1 _ hrm).2 ht).2.1 hsd
  exact ⟨⟨hmem, le_refl 1, by norm_num⟩, ⟨_, hrm, ht, hsd⟩, hact⟩

/-! ## Claim C6: more rerolls never hurt -/

theorem c6_mono (r : ℕ) (d : List ℕ) (s1 : ℤ) (hd : d ∈ FOUR_OUTS) (h5 : r + 1 ≤ 5) :
    (solveState2 r d s1).best.ev ≤ (solveState2 (r + 1) d s1).best.ev ∧
    (solveState1 r d).best.ev ≤ (solveState1 (r + 1) d).best.ev := by
  constructor
  · rw [best2_shift_ev r d s1, best2_shift_ev (r + 1) d s1]
    exact add_le_add_left (mono2 r h5 d hd) _
  · exact mono1 r h5 d hd

theorem c6_mono_witness :
    ([1, 1, 1, 1] ∈ FOUR_OUTS ∧ (0 : ℕ) + 1 ≤ 5) ∧
    ((solveState2 0 [1, 1, 1, 1] 0).best.ev ≤ (solveState2 1 [1, 1, 1, 1] 0).best.ev ∧
     (solveState1 0 [1, 1, 1, 1]).best.ev ≤ (solveState1 1 [1, 1, 1, 1]).best.ev) :=
  ⟨⟨by decide, by norm_num⟩, c6_mono 0 [1, 1, 1, 1] 0 (by decide) (by norm_num)⟩

/-! ## Claim C1: the sprint solver averages uniformly, not multinomially -/

/-- Claim C1 fails on the code: at the stage-2 state with one reroll left,
    dice 1,1,1,1 and carried score 0, the reroll moments the solver computes
    are the uniform average of the 126 child states' optimal moments
    (`combine_avg` divides by the deduplicated outcome count), and that value
    differs from the multinomial-weighted average the claim asserts; the
    stage-1 freeze fan-out moments at reroll budget 0 differ likewise. -/
theorem c1_uniform_not_multinomial :
    (solveState2 1 [1, 1, 1, 1] 0).reroll_m =
      some (combineAvg (FOUR_OUTS.map (fun o => (solveState2 0 o 0).best))) ∧
    combineAvg (FOUR_OUTS.map (fun o => (solveState2 0 o 0).best)) ≠
      specMultAvg (fun o => (solveState2 0 o 0).best) ∧
    (solveState1 0 [1, 1, 1, 1]).freeze_m ≠
      specMultAvg (fun o => (solveState2 0 o (scoreSet [1, 1, 1, 1])).best) := by
  refine ⟨rfl, ?_, ?_⟩ <;> with_unfolding_all decide

/-! ## Claim C7: standard deviations are clamped before the square root -/

theorem c7_sd_clamped :
    (∀ m : Moments, sd100m m = Real.sqrt (((varClamp m : ℚ) : ℝ)) ∧
      sdLJ m = Real.sqrt (((varClamp m : ℚ) : ℝ))) ∧
    (∀ m : Moments, 0 ≤ sd100m m ∧ 0 ≤ sdLJ m) ∧
    (∀ m : Moments, 0 ≤ varClamp m) := by
  refine ⟨fun m => ⟨sd100m_eq_varClamp m, ?_⟩,
    fun m => ⟨Real.sqrt_nonneg _, Real.sqrt_nonneg _⟩, fun m => le_max_left _ _⟩
  rw [sdLJ_eq_sd100m]
  exact sd100m_eq_varClamp m

/-! ## Long jump: fold invariants of the per-outcome scans -/

lemma foldl_invariant {α β : Type} (P : β → Prop) (l : List α) (step : β → α → β) (b : β)
    (hb : P b) (hstep : ∀ acc, P acc → ∀ x, x ∈ l → P (step acc x)) :
    P (l.foldl step b) :=
  List.foldlRecOn l step b hb hstep

lemma foldl_congr_mem {α β : Type} (l : List α) (f g : β → α → β) (b : β)
    (h : ∀ acc x, x ∈ l → f acc x = g acc x) : l.foldl f b = l.foldl g b := by
  induction l generalizing b with
  | nil => rfl
  | cons x xs ih =>
      simp only [List.foldl_cons]
      rw [h b x (List.mem_cons_self x xs)]
      exact ih _ (fun acc y hy => h acc y (List.mem_cons_of_mem x hy))

/-- The stop action is always available: the scanned best EV of a run-up
    state is at least the stop value the fold starts from. -/
lemma runupScan_stop_le (rec : ℕ → ℕ → Moments) (n s : ℕ) (cnt : List ℕ) :
    (runupStopM n s).ev ≤ (runupScan rec n s cnt).1.ev := by
  unfold runupScan
  apply foldl_invariant (fun acc : Moments × ℕ => (runupStopM n s).ev ≤ acc.1.ev)
  · exact le_refl _
  · intro acc hacc fc _
    dsimp only
    split_ifs with h1 h2
    · exact hacc
    · exact le_trans hacc (le_of_lt h2)
    · exact hacc

/-- The freeze count the scan selects is either the stop action or a legal
    freeze: between 1 and `n` and within the run-up ceiling. -/
lemma runupScan_fc_cases (rec : ℕ → ℕ → Moments) (n s : ℕ) (cnt : List ℕ) :
    (runupScan rec n s cnt).2 = 0 ∨
      (1 ≤ (runupScan rec n s cnt).2 ∧ (runupScan rec n s cnt).2 ≤ n ∧
        s + frozenLow cnt ((runupScan rec n s cnt).2) ≤ 8) := by
  unfold runupScan
  apply foldl_invariant
    (fun acc : Moments × ℕ => acc.2 = 0 ∨
      (1 ≤ acc.2 ∧ acc.2 ≤ n ∧ s + frozenLow cnt acc.2 ≤ 8))
  · exact Or.inl rfl
  · intro acc hacc fc hfc
    dsimp only
    split_ifs with h1 h2
    · exact hacc
    · right
      have hb := List.mem_range'_1.mp hfc
      dsimp only
      refine ⟨hb.1, by omega, by omega⟩
    · exact hacc

/-- If the scan keeps the stop action, its moments are exactly the stop
    moments. -/
lemma runupScan_stop_id (rec : ℕ → ℕ → Moments) (n s : ℕ) (cnt : List ℕ)
    (h : (runupScan rec n s cnt).2 = 0) :
    (runupScan rec n s cnt).1 = runupStopM n s := by
  have hinv : (fun acc : Moments × ℕ => acc.2 = 0 → acc.1 = runupStopM n s)
      (runupScan rec n s cnt) := by
    unfold runupScan
    apply foldl_invariant (fun acc : Moments × ℕ => acc.2 = 0 → acc.1 = runupStopM n s)
    · intro _
      rfl
    · intro acc hacc fc hfc
      dsimp only
      split_ifs with h1 h2
      · exact hacc
      · intro hz
        exfalso
        have hb := List.mem_range'_1.mp hfc
        omega
      · exact hacc
  exact hinv h

/-! ## Long jump: fuel correctness and the memo table -/

lemma jumpScan_congr (rec1 rec2 : ℕ → Moments) (n : ℕ) (cnt : List ℕ)
    (h : ∀ m, m < n → rec1 m = rec2 m) :
    jumpScan rec1 n cnt = jumpScan rec2 n cnt := by
  unfold jumpScan
  apply foldl_congr_mem
  intro acc fc hfc
  have hb := List.mem_range'_1.mp hfc
  have hrec : rec1 (n - fc) = rec2 (n - fc) := h _ (by omega)
  dsimp only
  rw [hrec]

lemma jumpBody_congr (rec1 rec2 : ℕ → Moments) (n : ℕ)
    (h : ∀ m, m < n → rec1 m = rec2 m) : jumpBody rec1 n = jumpBody rec2 n := by
  have hmap1 : (buildOutcomes n).map (fun pr => pr.2 * (jumpScan rec1 n pr.1).1.ev) =
      (buildOutcomes n).map (fun pr => pr.2 * (jumpScan rec2 n pr.1).1.ev) :=
    List.map_congr_left (fun pr _ => by rw [jumpScan_congr rec1 rec2 n pr.1 h])
  have hmap2 : (buildOutcomes n).map (fun pr => pr.2 * (jumpScan rec1 n pr.1).1.ev2) =
      (buildOutcomes n).map (fun pr => pr.2 * (jumpScan rec2 n pr.1).1.ev2) :=
    List.map_congr_left (fun pr _ => by rw [jumpScan_congr rec1 rec2 n pr.1 h])
  unfold jumpBody
  rw [hmap1, hmap2]

lemma jumpGo_fuel : ∀ n f g, n ≤ f → n ≤ g → jumpGo f n = jumpGo g n := by
  intro n
  induction n using Nat.strong_induction_on with
  | _ n ih =>
    intro f g hf hg
    match n, f, g with
    | 0, f, g => cases f <;> cases g <;> rfl
    | n + 1, 0, _ => exact absurd hf (by omega)
    | n + 1, _ + 1, 0 => exact absurd hg (by omega)
    | n + 1, f + 1, g + 1 =>
        show (if n + 1 = 0 then zeroM else jumpBody (jumpGo f) (n + 1)) =
          (if n + 1 = 0 then zeroM else jumpBody (jumpGo g) (n + 1))
        rw [if_neg (Nat.succ_ne_zero n), if_neg (Nat.succ_ne_zero n)]
        exact jumpBody_congr _ _ _
          (fun m hm => ih m (by omega) f g (by omega) (by omega))

lemma jumpPre_eq (n : ℕ) (h : n ≠ 0) : jumpPre n = jumpBody jumpPre n := by
  obtain ⟨m, rfl⟩ : ∃ m, n = m + 1 := ⟨n - 1, by omega⟩
  show (if m + 1 = 0 then zeroM else jumpBody (jumpGo m) (m + 1)) = _
  rw [if_neg (Nat.succ_ne_zero m)]
  exact jumpBody_congr _ _ _ (fun k hk => jumpGo_fuel k m k (by omega) (le_refl k))

lemma jumpRow_length (n : ℕ) : (jumpRow n).length = n + 1 := by
  induction n with
  | zero => rfl
  | succ n ih => simp [jumpRow, ih]

lemma jumpRow_getD : ∀ n m, m ≤ n → (jumpRow n).getD m zeroM = jumpPre m := by
  intro n
  induction n with
  | zero =>
      intro m hm
      interval_cases m
      rfl
  | succ n ih =>
      intro m hm
      by_cases hmn : m ≤ n
      · have hlen : m < (jumpRow n).length := by rw [jumpRow_length]; omega
        show ((jumpRow n) ++ [jumpBody (fun k => (jumpRow n).getD k zeroM) (n + 1)]).getD m zeroM = _
        rw [List.getD_append _ _ _ _ hlen]
        exact ih m hmn
      · have hm1 : m = n + 1 := by omega
        subst hm1
        have hlen : (jumpRow n).length ≤ n + 1 := by rw [jumpRow_length]
        show ((jumpRow n) ++ [jumpBody (fun k => (jumpRow n).getD k zeroM) (n + 1)]).getD (n + 1) zeroM = _
        rw [List.getD_append_right _ _ _ _ hlen, jumpRow_length]
        simp only [Nat.sub_self, List.getD_cons_zero]
        rw [jumpBody_congr _ jumpPre _ (fun k hk => ih k (by omega))]
        exact (jumpPre_eq (n + 1) (Nat.succ_ne_zero n)).symm

/-! ## Claim C2: what the stop action transfers to the jump phase -/

/-- Claim C2, amended — the stop action (freeze count 0) is always available:
    it is the fold's starting point, so the scanned best EV is at least the
    stop EV; but its value is the jump-phase value of the `5 - n_rem` dice
    frozen so far during the run-up, not of the remaining unfrozen dice. -/
theorem c2_stop_amended (n s : ℕ) (cnt : List ℕ) :
    runupStopM n s = jumpPre (5 - n) ∧
    (runupStopM n s).ev ≤ (runupScan runupPre n s cnt).1.ev :=
  ⟨rfl, runupScan_stop_le runupPre n s cnt⟩

/-- Claim C2, as stated, is false at the run-up state with 3 dice remaining
    and frozen sum 2: the stop value used by the solver is `solve_jump_pre 2`
    (the two frozen dice), which differs from `solve_jump_pre 3` (the three
    remaining dice) that the claim asserts. -/
theorem c2_stop_counterexample : runupStopM 3 2 ≠ jumpPre 3 := by
  have h2 : jumpPre 2 = (jumpRow 3).getD 2 zeroM := (jumpRow_getD 3 2 (by omega)).symm
  have h3 : jumpPre 3 = (jumpRow 3).getD 3 zeroM := (jumpRow_getD 3 3 (le_refl 3)).symm
  show jumpPre 2 ≠ jumpPre 3
  rw [h2, h3]
  with_unfolding_all decide

/-! ## Claim C3: the run-up ceiling of 8 is enforced by exclusion -/

/-- Claim C3 — at any run-up state, the freeze count recorded as best is
    either the stop action or a legal freeze whose cumulative frozen sum
    stays within the ceiling of 8; any freeze count that would exceed the
    ceiling is skipped by the scan and is never the recorded best action. -/
theorem c3_runup_ceiling (n s : ℕ) (cnt : List ℕ) :
    ((runupScan runupPre n s cnt).2 = 0 ∨
      (1 ≤ (runupScan runupPre n s cnt).2 ∧ (runupScan runupPre n s cnt).2 ≤ n ∧
        s + frozenLow cnt ((runupScan runupPre n s cnt).2) ≤ 8)) ∧
    (∀ k, 1 ≤ k → k ≤ n → 8 < s + frozenLow cnt k →
      (runupScan runupPre n s cnt).2 ≠ k) := by
  refine ⟨runupScan_fc_cases runupPre n s cnt, ?_⟩
  intro k h1 h2 h3 hk
  rcases runupScan_fc_cases runupPre n s cnt with h | h
  · omega
  · rw [hk] at h
    omega

theorem c3_runup_ceiling_witness :
    (1 ≤ 1 ∧ 1 ≤ 1 ∧ 8 < 8 + frozenLow [0, 0, 0, 0, 0, 1] 1) ∧
    (runupScan runupPre 1 8 [0, 0, 0, 0, 0, 1]).2 ≠ 1 := by
  have h3 : 8 < 8 + frozenLow [0, 0, 0, 0, 0, 1] 1 := by decide
  exact ⟨⟨le_refl 1, le_refl 1, h3⟩,
    (c3_runup_ceiling 1 8 [0, 0, 0, 0, 0, 1]).2 1 (le_refl 1) (le_refl 1) h3⟩

/-! ## Claim C9: the frozen-sum guard is unreachable from the initial call -/

/-- Claim C9 — every state reachable along recursive calls of
    `solve_runup_pre` from the initial call `(5, 0)` has frozen sum at most 8,
    because every call site passes the ceiling guard first; hence the `s > 8`
    early-return branch is never entered on a reachable call. -/
theorem c9_guard_unreachable (p : ℕ × ℕ) (h : RunupReach (5, 0) p) : p.2 ≤ 8 := by
  induction h with
  | refl => norm_num
  | tail hab hbc ih =>
      obtain ⟨hs, pr, hpr, fc, h1, h2, h3, h4⟩ := hbc
      rw [h4]
      exact h3

theorem c9_guard_unreachable_witness :
    RunupReach (5, 0) (5, 0) ∧ (((5 : ℕ), (0 : ℕ)) : ℕ × ℕ).2 ≤ 8 :=
  ⟨Relation.ReflTransGen.refl, c9_guard_unreachable (5, 0) Relation.ReflTransGen.refl⟩

/-! ## Claim C10: the jump value depends only on the dice count -/

/-- Claim C10 — the stop value used at a run-up state does not depend on the
    frozen sum: it is `solve_jump_pre (5 - n_rem)` for any frozen sum, and
    whenever the scan keeps the stop action its moments are exactly that
    jump-phase value, so the run-up frozen sum never enters the score. -/
theorem c10_jump_count_only :
    (∀ n s1 s2 : ℕ, runupStopM n s1 = runupStopM n s2) ∧
    (∀ n s : ℕ, runupStopM n s = jumpPre (5 - n)) ∧
    (∀ (n s : ℕ) (cnt : List ℕ), (runupScan runupPre n s cnt).2 = 0 →
      (runupScan runupPre n s cnt).1 = runupStopM n s) :=
  ⟨fun _ _ _ => rfl, fun _ _ => rfl, fun n s cnt h => runupScan_stop_id runupPre n s cnt h⟩

theorem c10_jump_count_only_witness :
    (runupScan runupPre 1 8 [0, 0, 0, 0, 0, 1]).2 = 0 ∧
    (runupScan runupPre 1 8 [0, 0, 0, 0, 0, 1]).1 = runupStopM 1 8 := by
  have h : (runupScan runupPre 1 8 [0, 0, 0, 0, 0, 1]).2 = 0 := by decide
  exact ⟨h, c10_jump_count_only.2.2 1 8 [0, 0, 0, 0, 0, 1] h⟩

/-! ## Claim C8: outcome enumeration counts -/

lemma buildOutcomes_big (n : ℕ) (h : n ≠ 0) :
    buildOutcomes n =
      (outcomesGrouped n 0).map (fun p => (decodeCounts p.1, (p.2 : ℚ) / 6 ^ n)) := by
  unfold buildOutcomes
  rw [if_neg h]

lemma buildOutcomes_keys (n : ℕ) (h : n ≠ 0) :
    (buildOutcomes n).map Prod.fst =
      ((outcomesGrouped n 0).map Prod.fst).map decodeCounts := by
  rw [buildOutcomes_big n h]
  simp [List.map_map, Function.comp_def]

lemma jump_keys_nodup (n : ℕ) (h : n ≠ 0)
    (hchain : chainLtB ((outcomesGrouped n 0).map Prod.fst) = true)
    (hbound : ∀ c ∈ (outcomesGrouped n 0).map Prod.fst, c < 6 ^ 6) :
    ((buildOutcomes n).map Prod.fst).Nodup := by
  rw [buildOutcomes_keys n h]
  exact List.Nodup.map_on
    (fun x hx y hy hxy => decodeCounts_inj (hbound x hx) (hbound y hy) hxy)
    (chainLt_nodup (chainLtB_chain _ hchain))

/-- Claim C8 — the jump-event enumerator produces exactly `C(n+5,5)` distinct
    canonical outcomes for each dice count `n = 1..5` (6, 21, 56, 126, 252),
    and the sprint enumerator's deduplicated list of sorted four-dice tuples
    has exactly 126 distinct entries. -/
theorem c8_outcome_counts :
    FOUR_OUTS = fourOutsCalc ∧ fourOutsCalc.length = 126 ∧ fourOutsCalc.Nodup ∧
    (buildOutcomes 1).length = Nat.choose 6 5 ∧
    (buildOutcomes 2).length = Nat.choose 7 5 ∧
    (buildOutcomes 3).length = Nat.choose 8 5 ∧
    (buildOutcomes 4).length = Nat.choose 9 5 ∧
    (buildOutcomes 5).length = Nat.choose 10 5 ∧
    ((buildOutcomes 1).map Prod.fst).Nodup ∧
    ((buildOutcomes 2).map Prod.fst).Nodup ∧
    ((buildOutcomes 3).map Prod.fst).Nodup ∧
    ((buildOutcomes 4).map Prod.fst).Nodup ∧
    ((buildOutcomes 5).map Prod.fst).Nodup := by
  have h := jumpEnumCheck_true
  unfold jumpEnumCheck at h
  simp only [Bool.and_eq_true, beq_iff_eq, List.all_eq_true, decide_eq_true_eq] at h
  obtain ⟨⟨⟨⟨⟨⟨⟨⟨⟨⟨⟨⟨⟨⟨⟨⟨⟨⟨⟨hl1, hl2⟩, hl3⟩, hl4⟩, hl5⟩, hc1⟩, hc2⟩, hc3⟩, hc4⟩, hc5⟩,
    hb1⟩, hb2⟩, hb3⟩, hb4⟩, hb5⟩, hs1⟩, hs2⟩, hs3⟩, hs4⟩, hs5⟩ := h
  have hlen : ∀ n : ℕ, n ≠ 0 →
      (buildOutcomes n).length = (outcomesGrouped n 0).length := by
    intro n hn
    rw [buildOutcomes_big n hn, List.length_map]
  refine ⟨four_outs_spec, ?_, ?_, ?_, ?_, ?_, ?_, ?_, ?_, ?_, ?_, ?_, ?_⟩
  · rw [← four_outs_spec]
    decide
  · rw [← four_outs_spec]
    decide
  · rw [hlen 1 (by omega), ← lengthB_eq, hl1]
    decide
  · rw [hlen 2 (by omega), ← lengthB_eq, hl2]
    decide
  · rw [hlen 3 (by omega), ← lengthB_eq, hl3]
    decide
  · rw [hlen 4 (by omega), ← lengthB_eq, hl4]
    decide
  · rw [hlen 5 (by omega), ← lengthB_eq, hl5]
    decide
  · exact jump_keys_nodup 1 (by omega) hc1 hb1
  · exact jump_keys_nodup 2 (by omega) hc2 hb2
  · exact jump_keys_nodup 3 (by omega) hc3 hb3
  · exact jump_keys_nodup 4 (by omega) hc4 hb4
  · exact jump_keys_nodup 5 (by omega) hc5 hb5
